import Mathlib

set_option maxRecDepth 10000

/-!
Shallow embedding of the cc-daily-reports history-parsing core
(src/parser.ts, src/utils.ts, src/types.ts).

External libraries (JSON.parse, date-fns parseISO / isSameDay /
differenceInMinutes) are modelled by an explicit environment `Ext`
whose fields carry their documented behaviour; the repository's own
code is translated function by function.  JS `Date` values are
modelled as `Option Int` (epoch milliseconds; `none` = Invalid Date),
JS `undefined`/missing fields as `Option`, and the filesystem as an
explicit value.
-/

namespace CCDaily

/-- One item of an array-shaped `message.content`
(`{type: ..., text: ...}`); `text` is `none` when the field is absent
or not a string. -/
structure ContentItem where
  type : String
  text : Option String
deriving DecidableEq, Repr

/-- `message.content`: a JSON string, an array of parts, or any other
JSON shape. -/
inductive Content where
  | str (s : String)
  | arr (items : List ContentItem)
  | other
deriving DecidableEq, Repr

/-- `entry.message`; `role` is `none` when absent. -/
structure Message where
  role : Option String
  content : Option Content
deriving DecidableEq, Repr

/-- One parsed JSONL line (types.ts `ClaudeHistoryEntry`); only the
fields the parser reads are modelled.  `none` = field absent. -/
structure Entry where
  type : Option String
  message : Option Message
  timestamp : Option String
deriving DecidableEq, Repr

/-- The external environment: date-fns `parseISO` (`none` = Invalid
Date), `isSameDay` restricted to valid dates, and `JSON.parse`
composed with reading the entry-shaped fields (`none` = parse
throws; a successful parse of a non-object yields an `Entry` whose
fields are all `none`, like property access on a JS scalar). -/
structure Ext where
  parseISO : String → Option Int
  sameDay : Int → Int → Bool
  jsonParse : String → Option Entry

/-- date-fns `isSameDay` on possibly-invalid dates: comparing
`startOfDay` epoch values, `NaN === NaN` is false, so any Invalid
Date compares unequal to everything. -/
def isSameDayJs (ext : Ext) : Option Int → Option Int → Bool
  | some a, some b => ext.sameDay a b
  | _, _ => false

/-- utils.ts `isValidDateString`: `isValid(parseISO(dateString))`. -/
def isValidDateString (ext : Ext) (s : String) : Bool :=
  (ext.parseISO s).isSome

/-- utils.ts `calculateDuration` via date-fns `differenceInMinutes`
(truncation toward zero, i.e. `Math.trunc`).  The source throws on an
Invalid Date argument; both call sites pass dates already known valid
(they come from the date-filtered entry list), so the throwing branch
is unreachable and the model takes `Int` arguments directly. -/
def calculateDuration (startTime endTime : Int) : Int :=
  Int.tdiv (endTime - startTime) 60000

/-! ## Generic helpers: JS string primitives and stable sort

All are structurally recursive (kernel-reducible) models of the JS
built-ins the source uses; the library versions are defined by
well-founded recursion and do not evaluate inside `decide`. -/

/-- `String.prototype.startsWith`. -/
def strStartsWith (s pre : String) : Bool :=
  pre.toList.isPrefixOf s.toList

/-- `String.prototype.endsWith`. -/
def strEndsWith (s suffix : String) : Bool :=
  suffix.toList.isSuffixOf s.toList

/-- Insert `x` into `acc` after every element `y` with `le y x`: the
insertion step of a stable insertion sort. -/
def insertLe (le : α → α → Bool) (x : α) : List α → List α
  | [] => [x]
  | y :: ys => if le y x then y :: insertLe le x ys else x :: y :: ys

/-- JS `Array.prototype.sort` with a consistent comparator: the
ECMAScript specification requires a stable sort, and for a consistent
comparator the stable sorted permutation is unique, so any stable
sort models it; this is stable insertion sort, processing elements in
input order. -/
def stableSort (le : α → α → Bool) (l : List α) : List α :=
  l.foldl (fun acc x => insertLe le x acc) []

/-! ## Identity codec (utils.ts `extractProjectName`, `extractProjectPath`) -/

/-- JS `String.prototype.split` with a single-character separator,
on the character list: `"".split(sep)` is `[""]`, adjacent separators
yield empty groups.  The result is always non-empty. -/
def splitOnChar (sep : Char) : List Char → List (List Char)
  | [] => [[]]
  | c :: rest =>
    match splitOnChar sep rest with
    | [] => [[]]
    | g :: gs => if c = sep then [] :: g :: gs else (c :: g) :: gs

/-- The two regex replaces at the top of `extractProjectName`: strip
the leading run and the trailing run of `-`. -/
def stripDashes (cs : List Char) : List Char :=
  ((cs.dropWhile (· = '-')).reverse.dropWhile (· = '-')).reverse

/-- The segment list `parts` of `extractProjectName`:
strip leading/trailing dash runs, split on `-`. -/
def partsOf (dirName : String) : List String :=
  (splitOnChar '-' (stripDashes dirName.toList)).map List.asString

/-- utils.ts `extractProjectName`.  `parts.join('-')` is
`String.intercalate "-"`; `xs.slice(-2)` is `drop (length - 2)`;
`parts[i] || dirName` is the JS falsy-string fallback. -/
def extractProjectName (dirName : String) : String :=
  let parts := partsOf dirName
  if parts.length = 0 then dirName
  else if parts.length = 6 then
    if (parts.get? 2).map String.length = some 1 then
      String.intercalate "-" (parts.drop (parts.length - 2))
    else
      String.intercalate "-" (parts.drop 3)
  else if parts.length ≥ 4 then
    String.intercalate "-" (parts.drop (parts.length - 2))
  else if parts.length ≥ 2 then
    match parts.getLast? with
    | some last => if last = "" then dirName else last
    | none => dirName
  else
    match parts.head? with
    | some p0 => if p0 = "" then dirName else p0
    | none => dirName

/-- utils.ts `extractProjectPath`: drop one leading `-` if present,
then replace every remaining `-` by the path separator. -/
def extractProjectPath (dirName : String) : String :=
  let s := if strStartsWith dirName "-" then dirName.drop 1 else dirName
  (s.toList.map (fun c => if c = '-' then '/' else c)).asString

/-! ## Event log reader (utils.ts `readJsonlFile`) -/

/-- JS `String.prototype.trim` (both ends), on the model's whitespace
predicate. -/
def jsTrim (s : String) : String :=
  (((s.toList.dropWhile Char.isWhitespace).reverse.dropWhile
      Char.isWhitespace).reverse).asString

/-- JS `content.split('\n')`. -/
def jsSplitLines (s : String) : List String :=
  (splitOnChar '\n' s.toList).map List.asString

/-- The `lines.map((line, index) => ...)` body of `readJsonlFile`:
parse each line in order; the first `JSON.parse` failure throws
`Failed to parse line ${index + 1} in ${filePath}` (the trailing
JSON `SyntaxError` text is elided in the model). -/
def parseLines (ext : Ext) (filePath : String) :
    List String → Nat → Except String (List Entry)
  | [], _ => .ok []
  | l :: rest, idx =>
    match ext.jsonParse l with
    | none =>
      .error ("Failed to parse line " ++ toString (idx + 1) ++ " in " ++ filePath)
    | some e =>
      match parseLines ext filePath rest (idx + 1) with
      | .ok es => .ok (e :: es)
      | .error msg => .error msg

/-- utils.ts `readJsonlFile`: read the file (`content = none` models
`readFileSync` throwing), `content.trim().split('\n')`, parse each
line; any inner throw is caught and rewrapped as
`Failed to read JSONL file ${filePath}: ${error}` (JS stringifies an
`Error` as `Error: <message>`). -/
def readJsonlFile (ext : Ext) (filePath : String) (content : Option String) :
    Except String (List Entry) :=
  match content with
  | none => .error ("Failed to read JSONL file " ++ filePath)
  | some c =>
    match parseLines ext filePath (jsSplitLines (jsTrim c)) 0 with
    | .ok es => .ok es
    | .error msg =>
      .error ("Failed to read JSONL file " ++ filePath ++ ": Error: " ++ msg)

/-! ## Session reconstruction (parser.ts `parseSessionFile`) -/

/-- types.ts `SessionInfo`; `startTime`/`endTime` are epoch
milliseconds, `duration` minutes. -/
structure SessionInfo where
  sessionId : String
  projectPath : String
  startTime : Int
  endTime : Int
  duration : Int
  messageCount : Nat
  userMessages : List String
deriving DecidableEq, Repr

/-- JS truthiness of `entry.timestamp` (`undefined` and `""` are
falsy). -/
def entryTs (e : Entry) : Option String :=
  match e.timestamp with
  | none => none
  | some s => if s = "" then none else some s

/-- The per-entry date filter in `parseSessionFile`:
`if (!entry.timestamp) return false;
 return isSameDay(parseISO(entry.timestamp), parseISO(targetDate))`
(the constant `parseISO(targetDate)` is hoisted into `target`). -/
def entryOnDate (ext : Ext) (target : Option Int) (e : Entry) : Bool :=
  match entryTs e with
  | none => false
  | some ts => isSameDayJs ext (ext.parseISO ts) target

/-- `entry.type === 'user' && entry.message?.role === 'user'`. -/
def isUserEntry (e : Entry) : Bool :=
  e.type == some "user" && (e.message.bind Message.role) == some "user"

/-- The message-extraction body of `parseSessionFile`: plain-string
content is returned as is; array content yields the `text` of the
first `type === 'text'` item, with the JS `|| '[Tool use]'` fallback
also firing on an empty or missing `text`; any other shape yields
`'[Unknown content]'`. -/
def extractText (e : Entry) : String :=
  match e.message.bind Message.content with
  | some (Content.str s) => s
  | some (Content.arr items) =>
    match items.find? (fun item => item.type == "text") with
    | some item =>
      match item.text with
      | some t => if t = "" then "[Tool use]" else t
      | none => "[Tool use]"
    | none => "[Tool use]"
  | _ => "[Unknown content]"

/-- `path.basename(filePath, '.jsonl')` applied to the file's base
name. -/
def basenameNoJsonl (name : String) : String :=
  if strEndsWith name ".jsonl" then name.dropRight 6 else name

/-- The epoch value of an entry's timestamp, as read inside
`parseSessionFile`. -/
def entryMillis (ext : Ext) (e : Entry) : Option Int :=
  (entryTs e).bind ext.parseISO

/-- The JS ascending numeric sort comparator
`(a, b) => a.getTime() - b.getTime()` as a boolean order on epoch
values. -/
def intLE (a b : Int) : Bool := decide (a ≤ b)

/-- The date-filtered entries of `parseSessionFile`. -/
def targetEntriesOf (ext : Ext) (entries : List Entry) (targetDate : String) :
    List Entry :=
  entries.filter (entryOnDate ext (ext.parseISO targetDate))

/-- The timestamp list of `parseSessionFile`, in entry order.  In the
source this is `targetEntries.filter(e => e.timestamp).map(e =>
parseISO(e.timestamp))`; every entry that passed the date filter has a
truthy timestamp that `parseISO` accepts (the filter applied
`isSameDay` to the parsed value, which is false for an Invalid Date),
so the filter-then-map of all-valid Dates is this `filterMap`
(see `mem_targetEntries_millis_isSome`). -/
def dateMillisList (ext : Ext) (entries : List Entry) (targetDate : String) :
    List Int :=
  (targetEntriesOf ext entries targetDate).filterMap (entryMillis ext)

/-- The sorted timestamp list of `parseSessionFile`.  JS numeric sort
is modelled by `stableSort`; equal keys are indistinguishable here. -/
def sortedMillisOf (ext : Ext) (entries : List Entry) (targetDate : String) :
    List Int :=
  stableSort intLE (dateMillisList ext entries targetDate)

/-- parser.ts `parseSessionFile`, after `readJsonlFile` succeeded
(the spec's `reconstructSession`): filter to the target date, extract
user messages, compute the min/max timestamp window and the duration.
The source's `if (!startTime || !endTime) return null` re-check is the
`| _, _ => none` arm. -/
def reconstructSession (ext : Ext) (fileName projectPath : String)
    (entries : List Entry) (targetDate : String) : Option SessionInfo :=
  let sessionId := basenameNoJsonl fileName
  let targetEntries := targetEntriesOf ext entries targetDate
  if targetEntries.isEmpty then none
  else
    let userMessages := (targetEntries.filter isUserEntry).map extractText
    if userMessages.isEmpty then none
    else
      let timestamps := sortedMillisOf ext entries targetDate
      match timestamps.head?, timestamps.getLast? with
      | some s, some e =>
        some { sessionId := sessionId, projectPath := projectPath,
               startTime := s, endTime := e,
               duration := calculateDuration s e,
               messageCount := userMessages.length,
               userMessages := userMessages }
      | _, _ => none

/-- parser.ts `parseSessionFile` including the `readJsonlFile` call;
a thrown error propagates to the per-file catch of
`parseProjectForDate`. -/
def parseSessionFile (ext : Ext) (filePath fileName : String)
    (content : Option String) (targetDate projectPath : String) :
    Except String (Option SessionInfo) :=
  match readJsonlFile ext filePath content with
  | .error msg => .error msg
  | .ok entries => .ok (reconstructSession ext fileName projectPath entries targetDate)

/-! ## Project aggregation (parser.ts `ClaudeHistoryParser`) -/

/-- types.ts `ParseError` (`originalError` is not modelled). -/
structure ParseError where
  file : String
  line : Nat
  message : String
deriving DecidableEq, Repr

/-- types.ts `ProjectInfo`. -/
structure ProjectInfo where
  name : String
  path : String
  sessions : List SessionInfo
  totalDuration : Int
  totalMessages : Nat
  date : String
deriving DecidableEq, Repr

/-- The `summary` object of types.ts `DailyReport`. -/
structure Summary where
  totalDuration : Int
  totalMessages : Nat
  projectCount : Nat
  sessionCount : Nat
deriving DecidableEq, Repr

/-- types.ts `DailyReport`. -/
structure ReportData where
  date : String
  projects : List ProjectInfo
  summary : Summary
deriving DecidableEq, Repr

/-- types.ts `ProcessResult` (`data` absent on failure). -/
structure ProcessResult where
  success : Bool
  data : Option ReportData
  errors : List ParseError
  warnings : List String
deriving DecidableEq, Repr

/-- One log file inside a project directory; `content = none` models
a file `readFileSync` fails to open. -/
structure LogFile where
  name : String
  content : Option String
deriving DecidableEq, Repr

/-- One entry of the root projects directory. -/
structure DirEntry where
  name : String
  isDir : Bool
  files : List LogFile
deriving DecidableEq, Repr

/-- The filesystem as seen by the parser: the configured
`claudeProjectsPath`, whether it exists as a directory, and its
entries. -/
structure FileSystem where
  rootPath : String
  rootExists : Bool
  rootEntries : List DirEntry
deriving DecidableEq, Repr

/-- `path.join`. -/
def pathJoin (a b : String) : String := a ++ "/" ++ b

/-- The JS ascending sort comparator
`(a, b) => a.startTime.getTime() - b.startTime.getTime()` as a
boolean order (JS `Array.prototype.sort` is a stable sort). -/
def sessionLE (a b : SessionInfo) : Bool := decide (a.startTime ≤ b.startTime)

/-- The JS descending sort comparator
`(a, b) => b.totalDuration - a.totalDuration` as a boolean order. -/
def projectGE (a b : ProjectInfo) : Bool := decide (b.totalDuration ≤ a.totalDuration)

/-- The filter body of `getProjectDirectories`: root entries that are
directories and start with `-`. -/
def projectDirsOf (fs : FileSystem) : List DirEntry :=
  fs.rootEntries.filter (fun d => d.isDir && strStartsWith d.name "-")

/-- parser.ts `getProjectDirectories`: the root entries that are
directories and start with `-`; throws when the root directory
cannot be read. -/
def getProjectDirectories (fs : FileSystem) : Except String (List DirEntry) :=
  if fs.rootExists then
    .ok (projectDirsOf fs)
  else
    .error "Failed to read projects directory"

/-- parser.ts `getJsonlFiles`: entries of the project directory
ending in `.jsonl` (the directory was already seen to exist, so the
readdir throw branch is not reachable in the model). -/
def getJsonlFiles (dir : DirEntry) : List LogFile :=
  dir.files.filter (fun f => strEndsWith f.name ".jsonl")

/-- The body of the per-file loop of `parseProjectForDate`: a
successful non-null parse appends a session; a throw from
`parseSessionFile` is caught and appended to `this.errors` as a
file-level `ParseError` (`line: 0`), and the loop continues. -/
def sessionStep (ext : Ext) (projectPath targetDate actualPath : String)
    (acc : List SessionInfo × List ParseError) (f : LogFile) :
    List SessionInfo × List ParseError :=
  let filePath := pathJoin projectPath f.name
  match parseSessionFile ext filePath f.name f.content targetDate actualPath with
  | .ok (some s) => (acc.1 ++ [s], acc.2)
  | .ok none => acc
  | .error msg =>
    (acc.1, acc.2 ++ [{ file := filePath, line := 0,
                        message := "Failed to parse session file: Error: " ++ msg }])

/-- parser.ts `parseProjectForDate`.  Returns the produced
`ProjectInfo` (or `null`) together with the `ParseError`s and
warnings the call pushed onto the parser's accumulators, in push
order. -/
def parseProjectForDate (ext : Ext) (fs : FileSystem) (dir : DirEntry)
    (targetDate : String) : Option ProjectInfo × List ParseError × List String :=
  let projectPath := pathJoin fs.rootPath dir.name
  let projectName := extractProjectName dir.name
  let actualPath := extractProjectPath dir.name
  let jsonlFiles := getJsonlFiles dir
  if jsonlFiles.isEmpty then
    (none, [], ["No JSONL files found in project: " ++ projectName])
  else
    let (sessions, errs) :=
      jsonlFiles.foldl (sessionStep ext projectPath targetDate actualPath) ([], [])
    if sessions.isEmpty then
      (none, errs, [])
    else
      let totalDuration := sessions.foldl (fun sum s => sum + s.duration) 0
      let totalMessages := sessions.foldl (fun sum s => sum + s.messageCount) 0
      (some { name := projectName, path := actualPath,
              sessions := stableSort sessionLE sessions,
              totalDuration := totalDuration,
              totalMessages := totalMessages,
              date := targetDate },
       errs, [])

/-- parser.ts `calculateSummary`. -/
def calculateSummary (projects : List ProjectInfo) : Summary :=
  { totalDuration := projects.foldl (fun sum p => sum + p.totalDuration) 0
    totalMessages := projects.foldl (fun sum p => sum + p.totalMessages) 0
    projectCount := projects.length
    sessionCount := projects.foldl (fun sum p => sum + p.sessions.length) 0 }

/-- The body of the per-project loop of `parseForDate`: keep the
project when it is non-null with at least one session; accumulate its
errors and warnings either way.  (The per-project catch is
unreachable in the model: `parseProjectForDate` is total here.) -/
def projectStep (ext : Ext) (fs : FileSystem) (targetDate : String)
    (acc : List ProjectInfo × List ParseError × List String) (dir : DirEntry) :
    List ProjectInfo × List ParseError × List String :=
  let (pi, errs, warns) := parseProjectForDate ext fs dir targetDate
  match pi with
  | some p =>
    if p.sessions.length > 0 then
      (acc.1 ++ [p], acc.2.1 ++ errs, acc.2.2 ++ warns)
    else
      (acc.1, acc.2.1 ++ errs, acc.2.2 ++ warns)
  | none => (acc.1, acc.2.1 ++ errs, acc.2.2 ++ warns)

/-- parser.ts `parseForDate`. -/
def parseForDate (ext : Ext) (fs : FileSystem) (targetDate : String) :
    ProcessResult :=
  if ¬ isValidDateString ext targetDate then
    { success := false, data := none,
      errors := [{ file := "parser", line := 0,
                   message := "Parse failed: Error: Invalid date format: " ++ targetDate }],
      warnings := [] }
  else if ¬ fs.rootExists then
    { success := false, data := none,
      errors := [{ file := "parser", line := 0,
                   message := "Parse failed: Error: Claude projects directory not found: "
                     ++ fs.rootPath }],
      warnings := [] }
  else
    let projectDirs := projectDirsOf fs
    if projectDirs.isEmpty then
      { success := true,
        data := some { date := targetDate, projects := [],
                       summary := { totalDuration := 0, totalMessages := 0,
                                    projectCount := 0, sessionCount := 0 } },
        errors := [], warnings := ["No Claude projects found"] }
    else
      let (projects, errors, warnings) :=
        projectDirs.foldl (projectStep ext fs targetDate) ([], [], [])
      { success := true,
        data := some { date := targetDate,
                       projects := stableSort projectGE projects,
                       summary := calculateSummary projects },
        errors := errors, warnings := warnings }

/-- parser.ts `parseProjectOnly`.  Note: unlike `parseForDate`, it
never validates `targetDate`. -/
def parseProjectOnly (ext : Ext) (fs : FileSystem)
    (projectName targetDate : String) : ProcessResult :=
  match getProjectDirectories fs with
  | .error msg =>
    { success := false, data := none,
      errors := [{ file := "parser", line := 0,
                   message := "Parse failed: Error: " ++ msg }],
      warnings := [] }
  | .ok projectDirs =>
    match projectDirs.find? (fun d => extractProjectName d.name == projectName) with
    | none =>
      { success := false, data := none,
        errors := [{ file := "parser", line := 0,
                     message := "Parse failed: Error: Project not found: " ++ projectName }],
        warnings := [] }
    | some dir =>
      let (pi, errs, warns) := parseProjectForDate ext fs dir targetDate
      let projects := match pi with | some p => [p] | none => []
      { success := true,
        data := some { date := targetDate, projects := projects,
                       summary := calculateSummary projects },
        errors := errs, warnings := warns }

/-- parser.ts `getAvailableProjects`. -/
def getAvailableProjects (fs : FileSystem) : List String :=
  match getProjectDirectories fs with
  | .ok dirs => dirs.map (fun d => extractProjectName d.name)
  | .error _ => []

/-! ## A concrete external environment

A computable instance of `Ext` used to run the model on concrete
inputs.  `parseISOm` accepts the two ISO-8601 shapes the log store
uses (`YYYY-MM-DD` and `YYYY-MM-DDTHH:MM:SSZ`) over a simplified
calendar in which every month has 31 days; anything else is Invalid.
`jsonParseM` tabulates `JSON.parse` on the concrete JSONL lines used
below (JSON braces are written with \x7b / \x7d escapes); all other
strings fail to parse. -/

/-- Numeric value of a decimal digit character. -/
def digitVal (c : Char) : Option Nat :=
  if c.isDigit then some (c.toNat - 48) else none

/-- Two-digit decimal read. -/
def read2 (a b : Char) : Option Nat :=
  match digitVal a, digitVal b with
  | some x, some y => some (x * 10 + y)
  | _, _ => none

/-- Four-digit decimal read. -/
def read4 (a b c d : Char) : Option Nat :=
  match read2 a b, read2 c d with
  | some x, some y => some (x * 100 + y)
  | _, _ => none

/-- Epoch milliseconds of a calendar day in the simplified
31-day-month calendar. -/
def dayMillis (y m d : Nat) : Int :=
  (((y * 12 + (m - 1)) * 31 + (d - 1)) : Int) * 86400000

/-- Modelled date-fns `parseISO` (concrete instance). -/
def parseISOm (s : String) : Option Int :=
  match s.toList with
  | [y1, y2, y3, y4, '-', m1, m2, '-', d1, d2] =>
    match read4 y1 y2 y3 y4, read2 m1 m2, read2 d1 d2 with
    | some y, some m, some d =>
      if 1 ≤ m ∧ m ≤ 12 ∧ 1 ≤ d ∧ d ≤ 31 then some (dayMillis y m d) else none
    | _, _, _ => none
  | [y1, y2, y3, y4, '-', m1, m2, '-', d1, d2, 'T',
     h1, h2, ':', n1, n2, ':', s1, s2, 'Z'] =>
    match read4 y1 y2 y3 y4, read2 m1 m2, read2 d1 d2,
          read2 h1 h2, read2 n1 n2, read2 s1 s2 with
    | some y, some m, some d, some h, some n, some sec =>
      if 1 ≤ m ∧ m ≤ 12 ∧ 1 ≤ d ∧ d ≤ 31 ∧ h ≤ 23 ∧ n ≤ 59 ∧ sec ≤ 59 then
        some (dayMillis y m d + ((h * 3600 + n * 60 + sec) : Int) * 1000)
      else none
    | _, _, _, _, _, _ => none
  | _ => none

/-- Modelled date-fns `isSameDay` on valid dates (concrete instance):
equal day index. -/
def sameDayM (a b : Int) : Bool :=
  a / 86400000 == b / 86400000

/-- A user JSONL line with plain-text content, at 09:00 on
2025-07-03. -/
def lineU1 : String :=
  "\x7b\"type\":\"user\",\"message\":\x7b\"role\":\"user\",\"content\":\"fix bug\"\x7d,\"timestamp\":\"2025-07-03T09:00:00Z\"\x7d"

/-- The entry `JSON.parse` yields for `lineU1`. -/
def entryU1 : Entry :=
  { type := some "user",
    message := some { role := some "user", content := some (Content.str "fix bug") },
    timestamp := some "2025-07-03T09:00:00Z" }

/-- An assistant JSONL line at 09:15 on 2025-07-03. -/
def lineA1 : String :=
  "\x7b\"type\":\"assistant\",\"message\":\x7b\"role\":\"assistant\",\"content\":\"done\"\x7d,\"timestamp\":\"2025-07-03T09:15:00Z\"\x7d"

/-- The entry `JSON.parse` yields for `lineA1`. -/
def entryA1 : Entry :=
  { type := some "assistant",
    message := some { role := some "assistant", content := some (Content.str "done") },
    timestamp := some "2025-07-03T09:15:00Z" }

/-- A user JSONL line on the next day, 2025-07-04. -/
def lineU2 : String :=
  "\x7b\"type\":\"user\",\"message\":\x7b\"role\":\"user\",\"content\":\"next\"\x7d,\"timestamp\":\"2025-07-04T09:20:00Z\"\x7d"

/-- The entry `JSON.parse` yields for `lineU2`. -/
def entryU2 : Entry :=
  { type := some "user",
    message := some { role := some "user", content := some (Content.str "next") },
    timestamp := some "2025-07-04T09:20:00Z" }

/-- Modelled `JSON.parse` plus entry-field reading (concrete
instance): the JSONL lines used in the concrete runs below, plus the
scalar line `"5"` (valid JSON, no object fields).  Everything else —
in particular the empty string and `"oops"` — throws. -/
def jsonParseM (s : String) : Option Entry :=
  if s = lineU1 then some entryU1
  else if s = lineA1 then some entryA1
  else if s = lineU2 then some entryU2
  else if s = "5" then some { type := none, message := none, timestamp := none }
  else none

/-- The concrete external environment. -/
def extA : Ext :=
  { parseISO := parseISOm, sameDay := sameDayM, jsonParse := jsonParseM }

/-! ## Derived views of the two accumulation loops

The `for` loops of `parseProjectForDate` and `parseForDate` only ever
append to their accumulators; these definitions name the contribution
of one file / one project directory, so that the loop results can be
characterised as `filterMap` / `flatMap` over the scanned list. -/

/-- The session (if any) one log file contributes. -/
def sessionOk (ext : Ext) (projectPath targetDate actualPath : String)
    (f : LogFile) : Option SessionInfo :=
  match parseSessionFile ext (pathJoin projectPath f.name) f.name f.content
      targetDate actualPath with
  | .ok (some s) => some s
  | _ => none

/-- The file-level `ParseError` (if any) one log file contributes. -/
def sessionErr (ext : Ext) (projectPath targetDate actualPath : String)
    (f : LogFile) : Option ParseError :=
  match parseSessionFile ext (pathJoin projectPath f.name) f.name f.content
      targetDate actualPath with
  | .error msg =>
    some { file := pathJoin projectPath f.name, line := 0,
           message := "Failed to parse session file: Error: " ++ msg }
  | _ => none

/-- The sessions of one project directory, in file scan order
(before the explicit sort). -/
def rawSessions (ext : Ext) (fs : FileSystem) (dir : DirEntry)
    (targetDate : String) : List SessionInfo :=
  (getJsonlFiles dir).filterMap
    (sessionOk ext (pathJoin fs.rootPath dir.name) targetDate
      (extractProjectPath dir.name))

/-- The file-level `ParseError`s of one project directory, in file
scan order. -/
def fileErrors (ext : Ext) (fs : FileSystem) (dir : DirEntry)
    (targetDate : String) : List ParseError :=
  (getJsonlFiles dir).filterMap
    (sessionErr ext (pathJoin fs.rootPath dir.name) targetDate
      (extractProjectPath dir.name))

/-- The project (if any) one directory contributes to `parseForDate`'s
result (non-null with at least one session). -/
def projectPick (ext : Ext) (fs : FileSystem) (targetDate : String)
    (dir : DirEntry) : Option ProjectInfo :=
  match (parseProjectForDate ext fs dir targetDate).1 with
  | some p => if p.sessions.length > 0 then some p else none
  | none => none

/-- The errors one directory pushes during `parseForDate`. -/
def projectErrsOf (ext : Ext) (fs : FileSystem) (targetDate : String)
    (dir : DirEntry) : List ParseError :=
  (parseProjectForDate ext fs dir targetDate).2.1

/-- The warnings one directory pushes during `parseForDate`. -/
def projectWarnsOf (ext : Ext) (fs : FileSystem) (targetDate : String)
    (dir : DirEntry) : List String :=
  (parseProjectForDate ext fs dir targetDate).2.2

/-- The project list accumulated by `parseForDate`'s loop, in
directory scan order (before the explicit sort). -/
def rawProjects (ext : Ext) (fs : FileSystem) (targetDate : String) :
    List ProjectInfo :=
  (projectDirsOf fs).filterMap (projectPick ext fs targetDate)

/-- The summary-consistency property of the spec, stated over a
produced `DailyReport`: the summary counts and totals agree with the
project list, and each project's totals agree with its session
list. -/
def summaryConsistent (data : ReportData) : Prop :=
  data.summary.projectCount = data.projects.length ∧
  data.summary.sessionCount =
    (data.projects.map (fun p => p.sessions.length)).sum ∧
  data.summary.totalDuration =
    (data.projects.map ProjectInfo.totalDuration).sum ∧
  data.summary.totalMessages =
    (data.projects.map ProjectInfo.totalMessages).sum ∧
  ∀ p ∈ data.projects,
    p.totalDuration = (p.sessions.map SessionInfo.duration).sum ∧
    p.totalMessages = (p.sessions.map SessionInfo.messageCount).sum

/-! ## Concrete fixtures -/

/-- A root directory with one project `-Users-dev-app` holding one
log file with a user line and an assistant line on 2025-07-03 and a
user line on 2025-07-04. -/
def dirE2E : DirEntry :=
  { name := "-Users-dev-app", isDir := true,
    files := [{ name := "s1.jsonl",
                content := some (String.intercalate "\n"
                  [lineU1, lineA1, lineU2]) }] }

def fsE2E : FileSystem :=
  { rootPath := "/root/.claude/projects", rootExists := true,
    rootEntries := [dirE2E] }

/-- Like `fsE2E` but the log file has one malformed line (`"oops"`,
line 5) among ten JSON-valid lines. -/
def fsC1 : FileSystem :=
  { rootPath := "/root/.claude/projects", rootExists := true,
    rootEntries := [
      { name := "-Users-dev-app", isDir := true,
        files := [{ name := "s1.jsonl",
                    content := some (String.intercalate "\n"
                      [lineU1, lineA1, "5", "5", "oops",
                       "5", "5", "5", "5", "5", "5"]) }] }] }

/-- Like `fsC1`'s log file but with the malformed line removed: the
same ten JSON-valid lines. -/
def fsC1v : FileSystem :=
  { rootPath := "/root/.claude/projects", rootExists := true,
    rootEntries := [
      { name := "-Users-dev-app", isDir := true,
        files := [{ name := "s1.jsonl",
                    content := some (String.intercalate "\n"
                      [lineU1, lineA1, "5", "5",
                       "5", "5", "5", "5", "5", "5"]) }] }] }

/-- A configured root path that does not exist. -/
def fsNoRoot : FileSystem :=
  { rootPath := "/nowhere/.claude/projects", rootExists := false,
    rootEntries := [] }

/-- The entry list of `fsE2E`'s log file. -/
def entriesE2E : List Entry := [entryU1, entryA1, entryU2]

/-- The session the model reconstructs from `entriesE2E` on
2025-07-03 (09:00 to 09:15, duration 15 minutes, one user message). -/
def sessionE2E : SessionInfo :=
  { sessionId := "s1", projectPath := "Users/dev/app",
    startTime := 65101395600000, endTime := 65101396500000,
    duration := 15, messageCount := 1, userMessages := ["fix bug"] }

/-- The project record `parseForDate` produces from `fsE2E`. -/
def projectE2E : ProjectInfo :=
  { name := "app", path := "Users/dev/app", sessions := [sessionE2E],
    totalDuration := 15, totalMessages := 1, date := "2025-07-03" }

/-- The report `parseForDate extA fsE2E "2025-07-03"` produces. -/
def dataE2E : ReportData :=
  { date := "2025-07-03", projects := [projectE2E],
    summary := { totalDuration := 15, totalMessages := 1,
                 projectCount := 1, sessionCount := 1 } }

/-- An empty report for 2025-07-03. -/
def reportEmpty : ReportData :=
  { date := "2025-07-03", projects := [],
    summary := { totalDuration := 0, totalMessages := 0,
                 projectCount := 0, sessionCount := 0 } }

/-- The single error `parseForDate extA fsC1 "2025-07-03"` records:
file-level (`line = 0`), with the malformed line's 1-based number
only inside the message text. -/
def errC1 : ParseError :=
  { file := "/root/.claude/projects/-Users-dev-app/s1.jsonl", line := 0,
    message := "Failed to parse session file: Error: Failed to read JSONL file /root/.claude/projects/-Users-dev-app/s1.jsonl: Error: Failed to parse line 5 in /root/.claude/projects/-Users-dev-app/s1.jsonl" }

/-! # Lemmas: the stable sort -/

theorem insertLe_decomp (le : α → α → Bool) (x : α) :
    ∀ acc : List α, ∃ u v, acc = u ++ v ∧ insertLe le x acc = u ++ x :: v
  | [] => ⟨[], [], rfl, rfl⟩
  | y :: ys => by
    by_cases h : le y x
    · obtain ⟨u, v, h1, h2⟩ := insertLe_decomp le x ys
      exact ⟨y :: u, v, by simp [h1], by simp [insertLe, h, h2]⟩
    · exact ⟨[], y :: ys, rfl, by simp [insertLe, h]⟩

theorem sublist_insertLe (le : α → α → Bool) (x : α) (acc : List α) :
    acc.Sublist (insertLe le x acc) := by
  obtain ⟨u, v, h1, h2⟩ := insertLe_decomp le x acc
  rw [h2, h1]
  exact List.Sublist.append_left (List.sublist_cons_self x v) u

theorem mem_insertLe_self (le : α → α → Bool) (x : α) (acc : List α) :
    x ∈ insertLe le x acc := by
  obtain ⟨u, v, h1, h2⟩ := insertLe_decomp le x acc
  rw [h2]
  exact List.mem_append_right u (List.mem_cons_self x v)

theorem insertLe_perm (le : α → α → Bool) (x : α) (acc : List α) :
    (insertLe le x acc).Perm (x :: acc) := by
  obtain ⟨u, v, h1, h2⟩ := insertLe_decomp le x acc
  rw [h2, h1]
  exact List.perm_middle

theorem mem_insertLe {le : α → α → Bool} {x z : α} {acc : List α} :
    z ∈ insertLe le x acc ↔ z = x ∨ z ∈ acc := by
  rw [(insertLe_perm le x acc).mem_iff, List.mem_cons]

theorem insertLe_sorted (le : α → α → Bool)
    (trans : ∀ a b c, le a b = true → le b c = true → le a c = true)
    (total : ∀ a b, (le a b || le b a) = true)
    (x : α) : ∀ {acc : List α},
    acc.Pairwise (fun u v => le u v = true) →
    (insertLe le x acc).Pairwise (fun u v => le u v = true) := by
  intro acc
  induction acc with
  | nil => intro _; simp [insertLe]
  | cons y ys ih =>
    intro h
    rcases List.pairwise_cons.mp h with ⟨hy, hys⟩
    by_cases hle : le y x
    · rw [insertLe, if_pos hle, List.pairwise_cons]
      constructor
      · intro z hz
        rcases mem_insertLe.mp hz with rfl | hzys
        · exact hle
        · exact hy z hzys
      · exact ih hys
    · rw [insertLe, if_neg hle, List.pairwise_cons]
      have hxy : le x y = true := by
        have ht := total y x
        rw [Bool.or_eq_true] at ht
        rcases ht with h1 | h1
        · exact absurd h1 hle
        · exact h1
      refine ⟨?_, h⟩
      intro z hz
      rcases List.mem_cons.mp hz with rfl | hzys
      · exact hxy
      · exact trans x y z hxy (hy z hzys)

theorem stableSort_perm (le : α → α → Bool) (l : List α) :
    (stableSort le l).Perm l := by
  suffices aux : ∀ (l acc : List α),
      (l.foldl (fun acc x => insertLe le x acc) acc).Perm (l ++ acc) by
    simpa using aux l []
  intro l
  induction l with
  | nil => intro acc; simp
  | cons x xs ih =>
    intro acc
    rw [List.foldl_cons]
    refine ((ih (insertLe le x acc)).trans ?_)
    refine (List.Perm.append_left xs (insertLe_perm le x acc)).trans ?_
    exact List.perm_middle

theorem mem_stableSort {le : α → α → Bool} {a : α} {l : List α} :
    a ∈ stableSort le l ↔ a ∈ l :=
  (stableSort_perm le l).mem_iff

theorem length_stableSort (le : α → α → Bool) (l : List α) :
    (stableSort le l).length = l.length :=
  (stableSort_perm le l).length_eq

theorem stableSort_pairwise (le : α → α → Bool)
    (trans : ∀ a b c, le a b = true → le b c = true → le a c = true)
    (total : ∀ a b, (le a b || le b a) = true)
    (l : List α) :
    (stableSort le l).Pairwise (fun u v => le u v = true) := by
  suffices aux : ∀ (l acc : List α),
      acc.Pairwise (fun u v => le u v = true) →
      (l.foldl (fun acc x => insertLe le x acc) acc).Pairwise
        (fun u v => le u v = true) by
    exact aux l [] (by simp)
  intro l
  induction l with
  | nil => intro acc h; simpa using h
  | cons x xs ih =>
    intro acc h
    rw [List.foldl_cons]
    exact ih (insertLe le x acc) (insertLe_sorted le trans total x h)

theorem pair_sublist_insertLe (le : α → α → Bool)
    (trans : ∀ a b c, le a b = true → le b c = true → le a c = true)
    {a b : α} (hab : le a b = true) :
    ∀ {acc : List α}, acc.Pairwise (fun u v => le u v = true) →
      [a].Sublist acc → [a, b].Sublist (insertLe le b acc)
  | [], _, ha => by cases ha
  | y :: ys, hp, ha => by
    rcases List.pairwise_cons.mp hp with ⟨hy, hys⟩
    by_cases hle : le y b
    · rw [insertLe, if_pos hle]
      cases ha with
      | cons _ ha' =>
        exact List.Sublist.cons y (pair_sublist_insertLe le trans hab hys ha')
      | cons₂ _ ha' =>
        exact List.Sublist.cons₂ a
          (List.singleton_sublist.mpr (mem_insertLe_self le b ys))
    · exfalso
      have hamem : a ∈ y :: ys := ha.subset (List.mem_singleton_self a)
      rcases List.mem_cons.mp hamem with rfl | hays
      · exact hle hab
      · exact hle (trans y a b (hy a hays) hab)

theorem pair_sublist_stableSort (le : α → α → Bool)
    (trans : ∀ a b c, le a b = true → le b c = true → le a c = true)
    (total : ∀ a b, (le a b || le b a) = true)
    {a b : α} (hab : le a b = true) {l : List α} (h : [a, b].Sublist l) :
    [a, b].Sublist (stableSort le l) := by
  suffices aux : ∀ (l acc : List α),
      acc.Pairwise (fun u v => le u v = true) →
      ([a, b].Sublist acc →
        [a, b].Sublist (l.foldl (fun acc x => insertLe le x acc) acc)) ∧
      ([a].Sublist acc → [b].Sublist l →
        [a, b].Sublist (l.foldl (fun acc x => insertLe le x acc) acc)) ∧
      ([a, b].Sublist l →
        [a, b].Sublist (l.foldl (fun acc x => insertLe le x acc) acc)) by
    exact (aux l [] (by simp)).2.2 h
  intro l
  induction l with
  | nil =>
    intro acc hacc
    refine ⟨fun h1 => h1, ?_, ?_⟩
    · intro _ hb; cases hb
    · intro h3; cases h3
  | cons x xs ih =>
    intro acc hacc
    have hacc' := insertLe_sorted le trans total x hacc
    refine ⟨?_, ?_, ?_⟩
    · intro h1
      rw [List.foldl_cons]
      exact (ih (insertLe le x acc) hacc').1
        (h1.trans (sublist_insertLe le x acc))
    · intro ha hb
      rw [List.foldl_cons]
      cases hb with
      | cons _ hb' =>
        exact (ih _ hacc').2.1 (ha.trans (sublist_insertLe le x acc)) hb'
      | cons₂ _ hb' =>
        exact (ih _ hacc').1 (pair_sublist_insertLe le trans hab hacc ha)
    · intro h3
      rw [List.foldl_cons]
      cases h3 with
      | cons _ h3' =>
        exact (ih _ hacc').2.2 h3'
      | cons₂ _ h3' =>
        exact (ih _ hacc').2.1
          (List.singleton_sublist.mpr (mem_insertLe_self le a acc)) h3'

/-! # Lemmas: loop characterisations -/

theorem sessionStep_eq (ext : Ext) (pp td ap : String)
    (acc : List SessionInfo × List ParseError) (f : LogFile) :
    sessionStep ext pp td ap acc f =
      (acc.1 ++ (sessionOk ext pp td ap f).toList,
       acc.2 ++ (sessionErr ext pp td ap f).toList) := by
  unfold sessionStep sessionOk sessionErr
  rcases h : parseSessionFile ext (pathJoin pp f.name) f.name f.content td ap
    with m | o
  · simp [h]
  · rcases o with _ | s <;> simp [h]

theorem foldl_sessionStep (ext : Ext) (pp td ap : String) :
    ∀ (files : List LogFile) (s0 : List SessionInfo) (e0 : List ParseError),
      files.foldl (sessionStep ext pp td ap) (s0, e0) =
        (s0 ++ files.filterMap (sessionOk ext pp td ap),
         e0 ++ files.filterMap (sessionErr ext pp td ap))
  | [], s0, e0 => by simp
  | f :: rest, s0, e0 => by
    rw [List.foldl_cons, sessionStep_eq, foldl_sessionStep ext pp td ap rest]
    cases h1 : sessionOk ext pp td ap f <;>
      cases h2 : sessionErr ext pp td ap f <;>
        simp [List.filterMap_cons, h1, h2]

theorem parseProjectForDate_eq (ext : Ext) (fs : FileSystem) (dir : DirEntry)
    (td : String) :
    parseProjectForDate ext fs dir td =
      if (getJsonlFiles dir).isEmpty then
        (none, [],
         ["No JSONL files found in project: " ++ extractProjectName dir.name])
      else if (rawSessions ext fs dir td).isEmpty then
        (none, fileErrors ext fs dir td, [])
      else
        (some { name := extractProjectName dir.name,
                path := extractProjectPath dir.name,
                sessions := stableSort sessionLE (rawSessions ext fs dir td),
                totalDuration := (rawSessions ext fs dir td).foldl
                  (fun sum s => sum + s.duration) 0,
                totalMessages := (rawSessions ext fs dir td).foldl
                  (fun sum s => sum + s.messageCount) 0,
                date := td },
         fileErrors ext fs dir td, []) := by
  unfold parseProjectForDate
  dsimp only
  rw [foldl_sessionStep]
  simp only [List.nil_append]
  rfl

theorem parseProjectForDate_fst_some {ext : Ext} {fs : FileSystem}
    {dir : DirEntry} {td : String} {p : ProjectInfo}
    (h : (parseProjectForDate ext fs dir td).1 = some p) :
    p.name = extractProjectName dir.name ∧
    p.path = extractProjectPath dir.name ∧
    p.sessions = stableSort sessionLE (rawSessions ext fs dir td) ∧
    rawSessions ext fs dir td ≠ [] ∧
    p.totalDuration = (rawSessions ext fs dir td).foldl
      (fun sum s => sum + s.duration) 0 ∧
    p.totalMessages = (rawSessions ext fs dir td).foldl
      (fun sum s => sum + s.messageCount) 0 := by
  rw [parseProjectForDate_eq] at h
  by_cases h1 : (getJsonlFiles dir).isEmpty
  · simp [h1] at h
  · by_cases h2 : (rawSessions ext fs dir td).isEmpty
    · simp [h1, h2] at h
    · rw [if_neg h1, if_neg h2] at h
      have hne : rawSessions ext fs dir td ≠ [] := fun hnil => h2 (by simp [hnil])
      have h' : _ = p := Option.some.inj h
      subst h'
      exact ⟨rfl, rfl, rfl, hne, rfl, rfl⟩

theorem projectStep_eq (ext : Ext) (fs : FileSystem) (td : String)
    (acc : List ProjectInfo × List ParseError × List String) (dir : DirEntry) :
    projectStep ext fs td acc dir =
      (acc.1 ++ (projectPick ext fs td dir).toList,
       acc.2.1 ++ projectErrsOf ext fs td dir,
       acc.2.2 ++ projectWarnsOf ext fs td dir) := by
  unfold projectStep projectPick projectErrsOf projectWarnsOf
  rcases h : parseProjectForDate ext fs dir td with ⟨pi, errs, warns⟩
  rcases pi with _ | p
  · simp [h]
  · by_cases hl : p.sessions.length > 0 <;> simp [h, hl]

theorem foldl_projectStep (ext : Ext) (fs : FileSystem) (td : String) :
    ∀ (dirs : List DirEntry) (p0 : List ProjectInfo) (e0 : List ParseError)
      (w0 : List String),
      dirs.foldl (projectStep ext fs td) (p0, e0, w0) =
        (p0 ++ dirs.filterMap (projectPick ext fs td),
         e0 ++ dirs.flatMap (projectErrsOf ext fs td),
         w0 ++ dirs.flatMap (projectWarnsOf ext fs td))
  | [], p0, e0, w0 => by simp
  | d :: rest, p0, e0, w0 => by
    rw [List.foldl_cons, projectStep_eq, foldl_projectStep ext fs td rest]
    cases h1 : projectPick ext fs td d <;>
      simp [List.filterMap_cons, h1, List.flatMap_cons]

theorem parseForDate_eq (ext : Ext) (fs : FileSystem) (td : String) :
    parseForDate ext fs td =
      if ¬ isValidDateString ext td then
        { success := false, data := none,
          errors := [{ file := "parser", line := 0,
                       message := "Parse failed: Error: Invalid date format: " ++ td }],
          warnings := [] }
      else if ¬ fs.rootExists then
        { success := false, data := none,
          errors := [{ file := "parser", line := 0,
                       message := "Parse failed: Error: Claude projects directory not found: "
                         ++ fs.rootPath }],
          warnings := [] }
      else if (projectDirsOf fs).isEmpty then
        { success := true,
          data := some { date := td, projects := [],
                         summary := { totalDuration := 0, totalMessages := 0,
                                      projectCount := 0, sessionCount := 0 } },
          errors := [], warnings := ["No Claude projects found"] }
      else
        { success := true,
          data := some { date := td,
                         projects := stableSort projectGE (rawProjects ext fs td),
                         summary := calculateSummary (rawProjects ext fs td) },
          errors := (projectDirsOf fs).flatMap (projectErrsOf ext fs td),
          warnings := (projectDirsOf fs).flatMap (projectWarnsOf ext fs td) } := by
  unfold parseForDate
  by_cases hv : isValidDateString ext td <;> simp only [hv]
  · by_cases hr : fs.rootExists <;> simp only [hr]
    · by_cases he : (projectDirsOf fs).isEmpty <;> simp only [he]
      · simp
      · rw [foldl_projectStep]
        simp [rawProjects]
    · simp
  · simp

/-! # Lemmas: orders and sorted lists -/

theorem intLE_trans : ∀ a b c : Int,
    intLE a b = true → intLE b c = true → intLE a c = true := by
  intro a b c hab hbc
  exact decide_eq_true (le_trans (of_decide_eq_true hab) (of_decide_eq_true hbc))

theorem intLE_total : ∀ a b : Int, (intLE a b || intLE b a) = true := by
  intro a b
  rcases le_total a b with h | h <;> simp [intLE, h]

theorem sessionLE_trans : ∀ a b c : SessionInfo,
    sessionLE a b = true → sessionLE b c = true → sessionLE a c = true := by
  intro a b c hab hbc
  exact decide_eq_true (le_trans (of_decide_eq_true hab) (of_decide_eq_true hbc))

theorem sessionLE_total : ∀ a b : SessionInfo,
    (sessionLE a b || sessionLE b a) = true := by
  intro a b
  rcases le_total a.startTime b.startTime with h | h <;> simp [sessionLE, h]

theorem projectGE_trans : ∀ a b c : ProjectInfo,
    projectGE a b = true → projectGE b c = true → projectGE a c = true := by
  intro a b c hab hbc
  exact decide_eq_true (le_trans (of_decide_eq_true hbc) (of_decide_eq_true hab))

theorem projectGE_total : ∀ a b : ProjectInfo,
    (projectGE a b || projectGE b a) = true := by
  intro a b
  rcases le_total b.totalDuration a.totalDuration with h | h <;> simp [projectGE, h]

theorem pairwise_head?_le {l : List Int} {x : Int}
    (hp : l.Pairwise (fun a b : Int => a ≤ b)) (hx : l.head? = some x) :
    ∀ y ∈ l, x ≤ y := by
  cases l with
  | nil => cases hx
  | cons a t =>
    cases hx
    intro y hy
    rcases List.mem_cons.mp hy with rfl | hyt
    · exact le_refl _
    · exact (List.pairwise_cons.mp hp).1 y hyt

theorem pairwise_le_getLast? {l : List Int} {x : Int}
    (hp : l.Pairwise (fun a b : Int => a ≤ b)) (hx : l.getLast? = some x) :
    ∀ y ∈ l, y ≤ x := by
  induction l with
  | nil => cases hx
  | cons a t ih =>
    cases t with
    | nil =>
      simp only [List.getLast?_singleton, Option.some.injEq] at hx
      subst hx
      intro y hy
      simp only [List.mem_singleton] at hy
      subst hy
      exact le_refl _
    | cons b t' =>
      rw [List.getLast?_cons_cons] at hx
      intro y hy
      rcases List.mem_cons.mp hy with rfl | hyt
      · have hxmem : x ∈ b :: t' :=
          List.mem_of_mem_getLast? (Option.mem_def.mpr hx)
        exact (List.pairwise_cons.mp hp).1 x hxmem
      · exact ih hp.of_cons hx y hyt

/-! # Lemmas: sums and project extraction -/

theorem foldl_add_eq_sum {α : Type _} {M : Type _} [AddCommMonoid M] (f : α → M) :
    ∀ (l : List α) (i : M), l.foldl (fun a x => a + f x) i = i + (l.map f).sum
  | [], i => by simp
  | x :: xs, i => by
    rw [List.foldl_cons, foldl_add_eq_sum f xs]
    simp [add_assoc]

theorem projectPick_some {ext : Ext} {fs : FileSystem} {td : String}
    {dir : DirEntry} {p : ProjectInfo}
    (h : projectPick ext fs td dir = some p) :
    (parseProjectForDate ext fs dir td).1 = some p := by
  unfold projectPick at h
  cases hq : (parseProjectForDate ext fs dir td).1 with
  | none => rw [hq] at h; cases h
  | some q =>
    rw [hq] at h
    dsimp only at h
    by_cases hl : q.sessions.length > 0
    · rw [if_pos hl] at h
      exact h
    · rw [if_neg hl] at h; cases h

theorem project_totals {ext : Ext} {fs : FileSystem} {dir : DirEntry}
    {td : String} {p : ProjectInfo}
    (h : (parseProjectForDate ext fs dir td).1 = some p) :
    p.totalDuration = (p.sessions.map SessionInfo.duration).sum ∧
    p.totalMessages = (p.sessions.map SessionInfo.messageCount).sum ∧
    p.sessions ≠ [] := by
  obtain ⟨-, -, hs, hne, hd, hm⟩ := parseProjectForDate_fst_some h
  have hperm := stableSort_perm sessionLE (rawSessions ext fs dir td)
  refine ⟨?_, ?_, ?_⟩
  · rw [hd, foldl_add_eq_sum SessionInfo.duration, zero_add, hs]
    exact ((hperm.map SessionInfo.duration).sum_eq).symm
  · rw [hm, foldl_add_eq_sum SessionInfo.messageCount, zero_add, hs]
    exact ((hperm.map SessionInfo.messageCount).sum_eq).symm
  · rw [hs]
    intro hnil
    have hlen : (rawSessions ext fs dir td).length = 0 := by
      rw [← length_stableSort sessionLE, hnil]
      rfl
    exact hne (List.length_eq_zero.mp hlen)

theorem mem_rawProjects {ext : Ext} {fs : FileSystem} {td : String}
    {p : ProjectInfo} (h : p ∈ rawProjects ext fs td) :
    ∃ dir ∈ projectDirsOf fs, (parseProjectForDate ext fs dir td).1 = some p := by
  unfold rawProjects at h
  obtain ⟨dir, hdir, hpick⟩ := List.mem_filterMap.mp h
  exact ⟨dir, hdir, projectPick_some hpick⟩

/-! # Lemmas: session reconstruction -/

/-- Every entry that passed the date filter carries a timestamp that
`parseISO` accepts: the filter applied `isSameDay` to the parsed
value, and `isSameDay` is false on an Invalid Date.  This is the
invariant that justifies modelling the source's
`filter(e => e.timestamp).map(e => parseISO(e.timestamp))` as
`filterMap (entryMillis ext)`. -/
theorem mem_targetEntries_millis_isSome {ext : Ext} {entries : List Entry}
    {td : String} {e : Entry} (h : e ∈ targetEntriesOf ext entries td) :
    (entryMillis ext e).isSome = true := by
  have hf : entryOnDate ext (ext.parseISO td) e = true := List.of_mem_filter h
  unfold entryOnDate at hf
  unfold entryMillis
  cases hts : entryTs e with
  | none => rw [hts] at hf; cases hf
  | some ts =>
    rw [hts] at hf
    dsimp only at hf
    unfold isSameDayJs at hf
    cases hp : ext.parseISO ts with
    | none =>
      rw [hp] at hf
      cases htd : ext.parseISO td <;> rw [htd] at hf <;> dsimp only at hf <;> cases hf
    | some v => simp [hp]

theorem sortedMillis_pairwise (ext : Ext) (entries : List Entry) (td : String) :
    (sortedMillisOf ext entries td).Pairwise (fun a b : Int => a ≤ b) := by
  have h := stableSort_pairwise intLE intLE_trans intLE_total
    (dateMillisList ext entries td)
  exact h.imp (fun hab => of_decide_eq_true hab)

theorem sortedMillis_perm (ext : Ext) (entries : List Entry) (td : String) :
    (sortedMillisOf ext entries td).Perm (dateMillisList ext entries td) :=
  stableSort_perm intLE (dateMillisList ext entries td)

theorem reconstructSession_some {ext : Ext} {fn pp : String}
    {entries : List Entry} {td : String} {s : SessionInfo}
    (h : reconstructSession ext fn pp entries td = some s) :
    s.sessionId = basenameNoJsonl fn ∧
    s.projectPath = pp ∧
    (sortedMillisOf ext entries td).head? = some s.startTime ∧
    (sortedMillisOf ext entries td).getLast? = some s.endTime ∧
    s.duration = calculateDuration s.startTime s.endTime ∧
    s.userMessages =
      ((targetEntriesOf ext entries td).filter isUserEntry).map extractText ∧
    s.messageCount = s.userMessages.length ∧
    s.userMessages ≠ [] := by
  unfold reconstructSession at h
  dsimp only at h
  by_cases h1 : (targetEntriesOf ext entries td).isEmpty
  · rw [if_pos h1] at h; cases h
  · rw [if_neg h1] at h
    by_cases h2 :
        (((targetEntriesOf ext entries td).filter isUserEntry).map extractText).isEmpty
    · rw [if_pos h2] at h; cases h
    · rw [if_neg h2] at h
      have hmsg :
          ((targetEntriesOf ext entries td).filter isUserEntry).map extractText
            ≠ [] := fun hnil => h2 (by simp [hnil])
      cases hh : (sortedMillisOf ext entries td).head? with
      | none =>
        rw [hh] at h
        cases hl : (sortedMillisOf ext entries td).getLast? <;>
          rw [hl] at h <;> dsimp only at h <;> cases h
      | some s0 =>
        cases hl : (sortedMillisOf ext entries td).getLast? with
        | none => rw [hh, hl] at h; dsimp only at h; cases h
        | some e0 =>
          rw [hh, hl] at h
          dsimp only at h
          have h' : _ = s := Option.some.inj h
          subst h'
          refine ⟨?_, ?_, ?_, ?_, ?_, ?_, ?_, hmsg⟩ <;> with_reducible rfl

/-! # Lemmas: the event log reader -/

/-- The first line that fails `JSON.parse` determines the thrown
message, which names that line's 1-based index; the later lines are
not reached. -/
theorem parseLines_first_error (ext : Ext) (path : String) :
    ∀ (pre : List String) (bad : String) (post : List String) (idx : Nat),
      (∀ l ∈ pre, (ext.jsonParse l).isSome = true) →
      ext.jsonParse bad = none →
      parseLines ext path (pre ++ bad :: post) idx =
        .error ("Failed to parse line " ++ toString (idx + pre.length + 1)
          ++ " in " ++ path)
  | [], bad, post, idx, hpre, hbad => by
    rw [List.nil_append]
    unfold parseLines
    rw [hbad]
    have h0 : idx + List.length ([] : List String) + 1 = idx + 1 := by simp
    rw [h0]
  | l :: pre', bad, post, idx, hpre, hbad => by
    obtain ⟨e, he⟩ :=
      Option.isSome_iff_exists.mp (hpre l (List.mem_cons_self l pre'))
    rw [List.cons_append]
    unfold parseLines
    rw [he]
    dsimp only
    rw [parseLines_first_error ext path pre' bad post (idx + 1)
      (fun x hx => hpre x (List.mem_cons_of_mem l hx)) hbad]
    have harith : idx + 1 + pre'.length + 1 = idx + (l :: pre').length + 1 := by
      simp only [List.length_cons]
      omega
    rw [harith]

/-- Each recorded per-file failure is file-level: its `line` field is
0 (the failing line's number appears only in the message text). -/
theorem sessionErr_line_zero {ext : Ext} {pp td ap : String} {f : LogFile}
    {err : ParseError} (h : sessionErr ext pp td ap f = some err) :
    err.line = 0 := by
  unfold sessionErr at h
  cases hp : parseSessionFile ext (pathJoin pp f.name) f.name f.content td ap with
  | error m =>
    rw [hp] at h
    dsimp only at h
    cases h
    rfl
  | ok o =>
    rw [hp] at h
    cases o <;> dsimp only at h <;> cases h

/-- JS `trim` absorbs a trailing newline: trimming `c ++ "\n"` equals
trimming `c`. -/
theorem jsTrim_append_newline (c : String) : jsTrim (c ++ "\n") = jsTrim c := by
  unfold jsTrim
  have hdata : (c ++ "\n").toList = c.toList ++ ['\n'] := by
    show (c ++ "\n").data = c.data ++ ['\n']
    rw [String.data_append]
  rw [hdata, List.dropWhile_append]
  by_cases hall : (c.toList.dropWhile Char.isWhitespace).isEmpty
  · rw [if_pos hall]
    have h2 : c.toList.dropWhile Char.isWhitespace = [] :=
      List.isEmpty_iff.mp hall
    rw [h2]
    rfl
  · rw [if_neg hall]
    rw [List.reverse_append]
    have hrev : (['\n'] : List Char).reverse = ['\n'] := rfl
    rw [hrev, List.singleton_append,
        List.dropWhile_cons_of_pos (by decide)]

/-! # Lemmas: the identity codec -/

theorem splitOnChar_ne_nil (sep : Char) : ∀ cs : List Char,
    splitOnChar sep cs ≠ []
  | [] => by simp [splitOnChar]
  | c :: rest => by
    unfold splitOnChar
    cases h : splitOnChar sep rest with
    | nil => exact absurd h (splitOnChar_ne_nil sep rest)
    | cons g gs =>
      dsimp only
      by_cases hc : c = sep <;> simp [hc]

/-- If the last group of a split is empty, the input was empty or
ended with the separator. -/
theorem splitOnChar_getLast_empty (sep : Char) :
    ∀ (cs : List Char) (g : List Char),
      (splitOnChar sep cs).getLast? = some g → g = [] →
      cs = [] ∨ cs.getLast? = some sep
  | [], _, _, _ => Or.inl rfl
  | c :: rest, g, hg, hge => by
    have hne := splitOnChar_ne_nil sep rest
    unfold splitOnChar at hg
    cases hr : splitOnChar sep rest with
    | nil => exact absurd hr hne
    | cons g0 gs =>
      rw [hr] at hg
      dsimp only at hg
      by_cases hc : c = sep
      · rw [if_pos hc] at hg
        rw [List.getLast?_cons_cons] at hg
        cases rest with
        | nil =>
          right
          subst hc
          simp
        | cons r rest' =>
          have hind := splitOnChar_getLast_empty sep (r :: rest') g
            (by rw [hr]; exact hg) hge
          rcases hind with h1 | h2
          · cases h1
          · right
            rw [List.getLast?_cons_cons]
            exact h2
      · rw [if_neg hc] at hg
        cases gs with
        | nil =>
          simp only [List.getLast?_singleton, Option.some.injEq] at hg
          rw [hge] at hg
          cases hg
        | cons g1 gs' =>
          rw [List.getLast?_cons_cons] at hg
          have hg' : (splitOnChar sep rest).getLast? = some g := by
            rw [hr, List.getLast?_cons_cons]
            exact hg
          have hind := splitOnChar_getLast_empty sep rest g hg' hge
          rcases hind with h1 | h2
          · subst h1
            rw [splitOnChar] at hr
            cases hr
          · right
            cases rest with
            | nil => cases h2
            | cons r rest' =>
              rw [List.getLast?_cons_cons]
              exact h2

/-- The stripped name never ends with a dash. -/
theorem stripDashes_getLast_ne {cs : List Char} {c : Char}
    (h : (stripDashes cs).getLast? = some c) : ¬ c = '-' := by
  unfold stripDashes at h
  rw [List.getLast?_reverse] at h
  have h2 := List.head?_dropWhile_not (fun x => decide (x = '-'))
    ((cs.dropWhile (fun x => decide (x = '-'))).reverse)
  rw [h] at h2
  simpa using h2

/-- With at least two segments, the last segment of `partsOf` is
non-empty (so the JS `|| dirName` fallback on it never fires). -/
theorem partsOf_getLast_ne_empty {d : String}
    (hlen : 2 ≤ (partsOf d).length) {l : String}
    (hg : (partsOf d).getLast? = some l) : l ≠ "" := by
  unfold partsOf at hlen hg
  rw [List.getLast?_map] at hg
  cases hg0 : (splitOnChar '-' (stripDashes d.toList)).getLast? with
  | none =>
    rw [hg0] at hg
    cases hg
  | some g =>
    rw [hg0] at hg
    have hg2 : g.asString = l := by simpa using hg
    intro hl
    have hgnil : g = [] := by
      have hstr : g.asString = "" := by rw [hg2, hl]
      simpa [List.asString] using congrArg String.data hstr
    rcases splitOnChar_getLast_empty '-' (stripDashes d.toList) g hg0 hgnil
      with h1 | h2
    · rw [h1] at hlen
      exact absurd hlen (by decide)
    · exact stripDashes_getLast_ne h2 rfl

/-! # Claims -/

/-- C4: for every event sequence and target date, `reconstructSession`
returns `none` whenever the date-filtered events contain zero
qualifying user instructions (`type = user` and `role = user`), even
when assistant events exist on that date; consequently a file whose
lines read successfully but contain no matching user content for the
date contributes no session. -/
theorem c4_no_user_instruction_yields_none (ext : Ext) (fn pp : String)
    (entries : List Entry) (td : String)
    (h : ∀ e ∈ targetEntriesOf ext entries td, isUserEntry e = false) :
    reconstructSession ext fn pp entries td = none ∧
    ∀ filePath content,
      readJsonlFile ext filePath content = .ok entries →
      parseSessionFile ext filePath fn content td pp = .ok none := by
  have hfil : (targetEntriesOf ext entries td).filter isUserEntry = [] :=
    List.filter_eq_nil_iff.mpr (fun a ha => by simp [h a ha])
  have h1 : reconstructSession ext fn pp entries td = none := by
    unfold reconstructSession
    dsimp only
    by_cases he : (targetEntriesOf ext entries td).isEmpty
    · rw [if_pos he]
    · rw [if_neg he, hfil]
      simp
  refine ⟨h1, ?_⟩
  intro filePath content hr
  unfold parseSessionFile
  rw [hr]
  dsimp only
  rw [h1]

/-- Witness for C4: one assistant event on the target date, no user
event — the date-filtered set is non-empty, yet no session results. -/
theorem c4_witness :
    targetEntriesOf extA [entryA1] "2025-07-03" ≠ [] ∧
    reconstructSession extA "s1.jsonl" "p" [entryA1] "2025-07-03" = none :=
  ⟨by decide,
   (c4_no_user_instruction_yields_none extA "s1.jsonl" "p" [entryA1]
      "2025-07-03" (by decide)).1⟩

/-- C6: for every reconstructed session, `startTime` and `endTime`
are the minimum and maximum timestamps among all date-filtered events
that carry one (assistant events included), `duration` is their
difference in minutes and is never negative, and it is zero when
exactly one timestamp is present in the filtered window. -/
theorem c6_window_and_duration (ext : Ext) (fn pp : String)
    (entries : List Entry) (td : String) (s : SessionInfo)
    (h : reconstructSession ext fn pp entries td = some s) :
    s.startTime ∈ dateMillisList ext entries td ∧
    (∀ t ∈ dateMillisList ext entries td, s.startTime ≤ t) ∧
    s.endTime ∈ dateMillisList ext entries td ∧
    (∀ t ∈ dateMillisList ext entries td, t ≤ s.endTime) ∧
    s.duration = calculateDuration s.startTime s.endTime ∧
    0 ≤ s.duration ∧
    ((dateMillisList ext entries td).length = 1 → s.duration = 0) := by
  obtain ⟨-, -, hh, hl, hdur, -, -, -⟩ := reconstructSession_some h
  have hpw := sortedMillis_pairwise ext entries td
  have hperm := sortedMillis_perm ext entries td
  have hsmem : s.startTime ∈ sortedMillisOf ext entries td :=
    List.mem_of_mem_head? (Option.mem_def.mpr hh)
  have hemem : s.endTime ∈ sortedMillisOf ext entries td :=
    List.mem_of_mem_getLast? (Option.mem_def.mpr hl)
  have hmin : ∀ t ∈ sortedMillisOf ext entries td, s.startTime ≤ t :=
    pairwise_head?_le hpw hh
  have hmax : ∀ t ∈ sortedMillisOf ext entries td, t ≤ s.endTime :=
    pairwise_le_getLast? hpw hl
  have hse : s.startTime ≤ s.endTime := hmin _ hemem
  refine ⟨hperm.mem_iff.mp hsmem,
    fun t ht => hmin t (hperm.mem_iff.mpr ht),
    hperm.mem_iff.mp hemem,
    fun t ht => hmax t (hperm.mem_iff.mpr ht),
    hdur, ?_, ?_⟩
  · rw [hdur]
    unfold calculateDuration
    exact Int.tdiv_nonneg (by omega) (by norm_num)
  · intro hlen
    have hslen : (sortedMillisOf ext entries td).length = 1 := by
      unfold sortedMillisOf
      rw [length_stableSort, hlen]
    obtain ⟨t, hts⟩ := List.length_eq_one.mp hslen
    rw [hts] at hh hl
    simp only [List.head?_cons, Option.some.injEq] at hh
    simp only [List.getLast?_singleton, Option.some.injEq] at hl
    rw [hdur, ← hh, ← hl]
    unfold calculateDuration
    rw [sub_self]
    exact Int.zero_tdiv _

/-- Witness for C6: the end-to-end fixture's session has
non-negative duration, and its start time is the minimum of the
filtered window. -/
theorem c6_witness :
    0 ≤ sessionE2E.duration ∧
    sessionE2E.startTime ∈ dateMillisList extA entriesE2E "2025-07-03" := by
  have h := c6_window_and_duration extA "s1.jsonl" "Users/dev/app"
    entriesE2E "2025-07-03" sessionE2E (by decide)
  exact ⟨h.2.2.2.2.2.1, h.1⟩

/-- C7: for every report produced by a successful `parseForDate` or
`parseProjectOnly` call, `summary.projectCount` is the number of
projects, `summary.sessionCount` the sum of their session counts,
`summary.totalDuration` (and `totalMessages`) the sum of the
projects' totals, and each project's totals are the sums over its
sessions. -/
theorem c7_summary_consistency (ext : Ext) (fs : FileSystem) (nm td : String) :
    (∀ data, (parseForDate ext fs td).data = some data →
      summaryConsistent data) ∧
    (∀ data, (parseProjectOnly ext fs nm td).data = some data →
      summaryConsistent data) := by
  constructor
  · intro data hdata
    rw [parseForDate_eq] at hdata
    split at hdata
    · cases hdata
    · split at hdata
      · cases hdata
      · split at hdata
        · have hx : _ = data := Option.some.inj hdata
          subst hx
          unfold summaryConsistent
          refine ⟨rfl, rfl, rfl, rfl, ?_⟩
          intro p hp
          cases hp
        · have hx : _ = data := Option.some.inj hdata
          subst hx
          unfold summaryConsistent calculateSummary
          have hperm := stableSort_perm projectGE (rawProjects ext fs td)
          refine ⟨?_, ?_, ?_, ?_, ?_⟩
          · dsimp only
            exact (length_stableSort projectGE _).symm
          · dsimp only
            rw [foldl_add_eq_sum (fun p : ProjectInfo => p.sessions.length), zero_add]
            exact ((hperm.map (fun p : ProjectInfo => p.sessions.length)).sum_eq).symm
          · dsimp only
            rw [foldl_add_eq_sum ProjectInfo.totalDuration, zero_add]
            exact ((hperm.map ProjectInfo.totalDuration).sum_eq).symm
          · dsimp only
            rw [foldl_add_eq_sum ProjectInfo.totalMessages, zero_add]
            exact ((hperm.map ProjectInfo.totalMessages).sum_eq).symm
          · intro p hp
            dsimp only at hp
            obtain ⟨dir, -, hsome⟩ := mem_rawProjects (mem_stableSort.mp hp)
            obtain ⟨hd, hm, -⟩ := project_totals hsome
            exact ⟨hd, hm⟩
  · intro data hdata
    unfold parseProjectOnly at hdata
    cases hg : getProjectDirectories fs with
    | error m =>
      rw [hg] at hdata
      cases hdata
    | ok dirs =>
      rw [hg] at hdata
      dsimp only at hdata
      cases hfind : dirs.find? (fun d => extractProjectName d.name == nm) with
      | none =>
        rw [hfind] at hdata
        cases hdata
      | some dir =>
        rw [hfind] at hdata
        dsimp only at hdata
        rcases hp : parseProjectForDate ext fs dir td with ⟨pi, errs, warns⟩
        rw [hp] at hdata
        dsimp only at hdata
        cases pi with
        | none =>
          have hx : _ = data := Option.some.inj hdata
          subst hx
          unfold summaryConsistent calculateSummary
          refine ⟨rfl, rfl, rfl, rfl, ?_⟩
          intro p hpmem
          cases hpmem
        | some p =>
          have hx : _ = data := Option.some.inj hdata
          subst hx
          have hfst : (parseProjectForDate ext fs dir td).1 = some p := by
            rw [hp]
          obtain ⟨hd, hm, -⟩ := project_totals hfst
          unfold summaryConsistent calculateSummary
          refine ⟨rfl, by simp, by simp, by simp, ?_⟩
          intro q hq
          have hq' : q = p := by simpa using hq
          subst hq'
          exact ⟨hd, hm⟩

/-- Witness for C7: the end-to-end fixture's report satisfies all the
summary-consistency equations. -/
theorem c7_witness : summaryConsistent dataE2E :=
  (c7_summary_consistency extA fsE2E "app" "2025-07-03").1 dataE2E (by decide)

/-- C9: every `ProjectInfo` in the output of `parseForDate` or
`parseProjectOnly` has a non-empty session list: a project whose
files yield zero sessions for the target date is excluded from the
result entirely rather than included as an empty record. -/
theorem c9_no_empty_project_records (ext : Ext) (fs : FileSystem)
    (nm td : String) :
    (∀ data, (parseForDate ext fs td).data = some data →
      ∀ p ∈ data.projects, p.sessions ≠ []) ∧
    (∀ data, (parseProjectOnly ext fs nm td).data = some data →
      ∀ p ∈ data.projects, p.sessions ≠ []) := by
  constructor
  · intro data hdata
    rw [parseForDate_eq] at hdata
    split at hdata
    · cases hdata
    · split at hdata
      · cases hdata
      · split at hdata
        · have hx : _ = data := Option.some.inj hdata
          subst hx
          intro p hp
          cases hp
        · have hx : _ = data := Option.some.inj hdata
          subst hx
          intro p hp
          dsimp only at hp
          obtain ⟨dir, -, hsome⟩ := mem_rawProjects (mem_stableSort.mp hp)
          exact (project_totals hsome).2.2
  · intro data hdata
    unfold parseProjectOnly at hdata
    cases hg : getProjectDirectories fs with
    | error m =>
      rw [hg] at hdata
      cases hdata
    | ok dirs =>
      rw [hg] at hdata
      dsimp only at hdata
      cases hfind : dirs.find? (fun d => extractProjectName d.name == nm) with
      | none =>
        rw [hfind] at hdata
        cases hdata
      | some dir =>
        rw [hfind] at hdata
        dsimp only at hdata
        rcases hp : parseProjectForDate ext fs dir td with ⟨pi, errs, warns⟩
        rw [hp] at hdata
        dsimp only at hdata
        cases pi with
        | none =>
          have hx : _ = data := Option.some.inj hdata
          subst hx
          intro p hpmem
          cases hpmem
        | some p =>
          have hx : _ = data := Option.some.inj hdata
          subst hx
          intro q hq
          have hq' : q = p := by simpa using hq
          subst hq'
          have hfst : (parseProjectForDate ext fs dir td).1 = some q := by
            rw [hp]
          exact (project_totals hfst).2.2

/-- Witness for C9: the fixture project record has a non-empty
session list. -/
theorem c9_witness : projectE2E.sessions ≠ [] :=
  (c9_no_empty_project_records extA fsE2E "app" "2025-07-03").1 dataE2E
    (by decide) projectE2E (by decide)

/-- C8: output ordering is deterministic.  In every produced report,
sessions within each project are sorted by `startTime` ascending and
projects are sorted by `totalDuration` descending; both sorts are
stable, so a pair already in the required order in the scanned input
(`rawSessions` / `rawProjects`) — in particular any tied pair — keeps
its input order in the output.  `parseProjectOnly` produces at most
one project, so its project order is trivially the same. -/
theorem c8_deterministic_ordering (ext : Ext) (fs : FileSystem)
    (nm td : String) :
    (∀ data, (parseForDate ext fs td).data = some data →
      data.projects.Pairwise (fun a b => b.totalDuration ≤ a.totalDuration) ∧
      (∀ a b : ProjectInfo, b.totalDuration ≤ a.totalDuration →
        [a, b].Sublist (rawProjects ext fs td) →
        [a, b].Sublist data.projects) ∧
      (∀ p ∈ data.projects, ∃ dir ∈ projectDirsOf fs,
        p.sessions = stableSort sessionLE (rawSessions ext fs dir td) ∧
        p.sessions.Pairwise (fun x y => x.startTime ≤ y.startTime) ∧
        (∀ x y : SessionInfo, x.startTime ≤ y.startTime →
          [x, y].Sublist (rawSessions ext fs dir td) →
          [x, y].Sublist p.sessions))) ∧
    (∀ data, (parseProjectOnly ext fs nm td).data = some data →
      data.projects.Pairwise (fun a b => b.totalDuration ≤ a.totalDuration) ∧
      ∀ p ∈ data.projects,
        p.sessions.Pairwise (fun x y => x.startTime ≤ y.startTime)) := by
  have hsess : ∀ dir p, (parseProjectForDate ext fs dir td).1 = some p →
      p.sessions = stableSort sessionLE (rawSessions ext fs dir td) ∧
      p.sessions.Pairwise (fun x y => x.startTime ≤ y.startTime) ∧
      (∀ x y : SessionInfo, x.startTime ≤ y.startTime →
        [x, y].Sublist (rawSessions ext fs dir td) →
        [x, y].Sublist p.sessions) := by
    intro dir p hsome
    obtain ⟨-, -, hs, -, -, -⟩ := parseProjectForDate_fst_some hsome
    refine ⟨hs, ?_, ?_⟩
    · rw [hs]
      exact (stableSort_pairwise sessionLE sessionLE_trans sessionLE_total
        _).imp (fun hxy => of_decide_eq_true hxy)
    · intro x y hxy hsub
      rw [hs]
      exact pair_sublist_stableSort sessionLE sessionLE_trans sessionLE_total
        (decide_eq_true hxy) hsub
  constructor
  · intro data hdata
    rw [parseForDate_eq] at hdata
    split at hdata
    · cases hdata
    · split at hdata
      · cases hdata
      · split at hdata
        · have hx : _ = data := Option.some.inj hdata
          subst hx
          rename_i hempty
          refine ⟨List.Pairwise.nil, ?_, ?_⟩
          · intro a b hab hsub
            have hdirs : projectDirsOf fs = [] := List.isEmpty_iff.mp hempty
            have hraw : rawProjects ext fs td = [] := by
              unfold rawProjects
              rw [hdirs]
              rfl
            rw [hraw] at hsub
            cases hsub
          · intro p hp
            cases hp
        · have hx : _ = data := Option.some.inj hdata
          subst hx
          refine ⟨?_, ?_, ?_⟩
          · exact (stableSort_pairwise projectGE projectGE_trans
              projectGE_total _).imp (fun hab => of_decide_eq_true hab)
          · intro a b hab hsub
            exact pair_sublist_stableSort projectGE projectGE_trans
              projectGE_total (decide_eq_true hab) hsub
          · intro p hp
            dsimp only at hp
            obtain ⟨dir, hdir, hsome⟩ := mem_rawProjects (mem_stableSort.mp hp)
            exact ⟨dir, hdir, hsess dir p hsome⟩
  · intro data hdata
    unfold parseProjectOnly at hdata
    cases hg : getProjectDirectories fs with
    | error m =>
      rw [hg] at hdata
      cases hdata
    | ok dirs =>
      rw [hg] at hdata
      dsimp only at hdata
      cases hfind : dirs.find? (fun d => extractProjectName d.name == nm) with
      | none =>
        rw [hfind] at hdata
        cases hdata
      | some dir =>
        rw [hfind] at hdata
        dsimp only at hdata
        rcases hp : parseProjectForDate ext fs dir td with ⟨pi, errs, warns⟩
        rw [hp] at hdata
        dsimp only at hdata
        cases pi with
        | none =>
          have hx : _ = data := Option.some.inj hdata
          subst hx
          refine ⟨List.Pairwise.nil, ?_⟩
          intro p hpmem
          cases hpmem
        | some p =>
          have hx : _ = data := Option.some.inj hdata
          subst hx
          refine ⟨List.pairwise_singleton _ _, ?_⟩
          intro q hq
          have hq' : q = p := by simpa using hq
          subst hq'
          have hfst : (parseProjectForDate ext fs dir td).1 = some q := by
            rw [hp]
          exact (hsess dir q hfst).2.1

/-- Witness for C8: the fixture report's projects are sorted by
descending total duration and its project's sessions by ascending
start time. -/
theorem c8_witness :
    dataE2E.projects.Pairwise
      (fun a b => b.totalDuration ≤ a.totalDuration) ∧
    projectE2E.sessions.Pairwise (fun x y => x.startTime ≤ y.startTime) := by
  have h := (c8_deterministic_ordering extA fsE2E "app" "2025-07-03").1
    dataE2E (by decide)
  refine ⟨h.1, ?_⟩
  obtain ⟨dir, -, -, hpw, -⟩ := h.2.2 projectE2E (by decide)
  exact hpw

/-- C2 (amended): `parseForDate` fails fast — success flag false,
descriptive error, no data — when the target date string is invalid
or the root log directory is missing; `parseProjectOnly` fails fast
when the root directory is missing or no decoded directory matches
the requested name.  But `parseProjectOnly` never validates the date
string: with the root present and a matching project it returns
success (with data) for any date string, valid or not. -/
theorem c2_fail_fast_amended (ext : Ext) (fs : FileSystem) (nm td : String) :
    (¬ isValidDateString ext td = true →
      parseForDate ext fs td =
        { success := false, data := none,
          errors := [{ file := "parser", line := 0,
                       message := "Parse failed: Error: Invalid date format: "
                         ++ td }],
          warnings := [] }) ∧
    (isValidDateString ext td = true → fs.rootExists = false →
      parseForDate ext fs td =
        { success := false, data := none,
          errors := [{ file := "parser", line := 0,
                       message := "Parse failed: Error: Claude projects directory not found: "
                         ++ fs.rootPath }],
          warnings := [] }) ∧
    (fs.rootExists = false →
      parseProjectOnly ext fs nm td =
        { success := false, data := none,
          errors := [{ file := "parser", line := 0,
                       message := "Parse failed: Error: Failed to read projects directory" }],
          warnings := [] }) ∧
    (fs.rootExists = true →
      (projectDirsOf fs).find? (fun d => extractProjectName d.name == nm) = none →
      parseProjectOnly ext fs nm td =
        { success := false, data := none,
          errors := [{ file := "parser", line := 0,
                       message := "Parse failed: Error: Project not found: "
                         ++ nm }],
          warnings := [] }) ∧
    (fs.rootExists = true →
      ∀ dir, (projectDirsOf fs).find? (fun d => extractProjectName d.name == nm)
          = some dir →
        (parseProjectOnly ext fs nm td).success = true ∧
        (parseProjectOnly ext fs nm td).data ≠ none) := by
  refine ⟨?_, ?_, ?_, ?_, ?_⟩
  · intro hv
    rw [parseForDate_eq, if_pos hv]
  · intro hv hr
    rw [parseForDate_eq, if_neg (by simp [hv]), if_pos (by simp [hr])]
  · intro hr
    unfold parseProjectOnly getProjectDirectories
    rw [if_neg (by simp [hr])]
    rfl
  · intro hr hfind
    unfold parseProjectOnly getProjectDirectories
    rw [if_pos hr]
    dsimp only
    rw [hfind]
  · intro hr dir hfind
    unfold parseProjectOnly getProjectDirectories
    rw [if_pos hr]
    dsimp only
    rw [hfind]
    dsimp only
    rcases hp : parseProjectForDate ext fs dir td with ⟨pi, errs, warns⟩
    dsimp only
    cases pi <;> exact ⟨rfl, by simp⟩

/-- Counterexample for C2 as frozen: with the root present and a
matching project, `parseProjectOnly` called with the invalid date
string `"not-a-date"` returns success `true` with an empty report —
not the failure the claim requires for an invalid calendar date. -/
theorem c2_counterexample :
    isValidDateString extA "not-a-date" = false ∧
    parseProjectOnly extA fsE2E "app" "not-a-date" =
      { success := true,
        data := some { date := "not-a-date", projects := [],
                       summary := { totalDuration := 0, totalMessages := 0,
                                    projectCount := 0, sessionCount := 0 } },
        errors := [], warnings := [] } := by
  constructor
  · decide
  · decide

/-- Witness for C2 (amended), at concrete inputs: the four fail-fast
cases and the success case. -/
theorem c2_witness :
    (parseForDate extA fsE2E "nope").success = false ∧
    (parseForDate extA fsNoRoot "2025-07-03").success = false ∧
    (parseProjectOnly extA fsNoRoot "app" "2025-07-03").success = false ∧
    (parseProjectOnly extA fsE2E "nope" "2025-07-03").success = false ∧
    (parseProjectOnly extA fsE2E "app" "2025-07-03").success = true := by
  refine ⟨?_, ?_, ?_, ?_, ?_⟩
  · rw [(c2_fail_fast_amended extA fsE2E "app" "nope").1 (by decide)]
  · rw [(c2_fail_fast_amended extA fsNoRoot "app" "2025-07-03").2.1
      (by decide) (by decide)]
  · rw [(c2_fail_fast_amended extA fsNoRoot "app" "2025-07-03").2.2.1
      (by decide)]
  · rw [(c2_fail_fast_amended extA fsE2E "nope" "2025-07-03").2.2.2.1
      (by decide) (by decide)]
  · exact ((c2_fail_fast_amended extA fsE2E "app" "2025-07-03").2.2.2.2
      (by decide) dirE2E (by decide)).1

/-- C3 (amended): after stripping leading/trailing delimiter runs and
splitting on the delimiter, `extractProjectName` chooses segments by
segment count — with 6 segments the last 2 when the third segment has
length 1 and otherwise the segments from index 3 on; with 4 or 5 the
last 2; with 2 or 3 the last segment; with 1 segment the single
segment when it is non-empty, and the original `dirName` unchanged
when it is empty (the JS `|| dirName` fallback, reachable only when
the stripped name is empty).  The two concrete examples hold. -/
theorem c3_decode_name_by_segment_count (d : String) :
    ((partsOf d).length = 6 →
      ((partsOf d).get? 2).map String.length = some 1 →
      extractProjectName d = String.intercalate "-" ((partsOf d).drop 4)) ∧
    ((partsOf d).length = 6 →
      ¬ ((partsOf d).get? 2).map String.length = some 1 →
      extractProjectName d = String.intercalate "-" ((partsOf d).drop 3)) ∧
    ((partsOf d).length = 4 ∨ (partsOf d).length = 5 →
      extractProjectName d =
        String.intercalate "-" ((partsOf d).drop ((partsOf d).length - 2))) ∧
    ((partsOf d).length = 2 ∨ (partsOf d).length = 3 →
      (partsOf d).getLast? = some (extractProjectName d)) ∧
    (∀ p, partsOf d = [p] →
      extractProjectName d = (if p = "" then d else p)) ∧
    extractProjectName "-Users-x-table-expense-checker" = "expense-checker" ∧
    extractProjectName "-Users-me-personal-claude-daily-reports" =
      "claude-daily-reports" := by
  refine ⟨?_, ?_, ?_, ?_, ?_, by decide, by decide⟩
  · intro h6 hc
    unfold extractProjectName
    dsimp only
    rw [if_neg (by simp [h6]), if_pos h6, if_pos hc, h6]
  · intro h6 hc
    unfold extractProjectName
    dsimp only
    rw [if_neg (by simp [h6]), if_pos h6, if_neg hc]
  · intro h45
    unfold extractProjectName
    dsimp only
    rw [if_neg (by rcases h45 with h | h <;> simp [h]),
        if_neg (by rcases h45 with h | h <;> simp [h]),
        if_pos (by rcases h45 with h | h <;> simp [h])]
  · intro h23
    have hlen2 : 2 ≤ (partsOf d).length := by rcases h23 with h | h <;> omega
    have hnil : partsOf d ≠ [] := by
      intro hn
      rw [hn] at hlen2
      simp at hlen2
    cases hgl : (partsOf d).getLast? with
    | none =>
      rw [List.getLast?_eq_none_iff] at hgl
      exact absurd hgl hnil
    | some last =>
      have hlne : last ≠ "" := partsOf_getLast_ne_empty hlen2 hgl
      have hres : extractProjectName d = last := by
        unfold extractProjectName
        dsimp only
        rw [if_neg (by rcases h23 with h | h <;> simp [h]),
            if_neg (by rcases h23 with h | h <;> simp [h]),
            if_neg (by rcases h23 with h | h <;> omega),
            if_pos (by rcases h23 with h | h <;> omega)]
        rw [hgl]
        dsimp only
        rw [if_neg hlne]
      rw [hres]
  · intro p hp
    unfold extractProjectName
    dsimp only
    rw [hp]
    simp

/-- Counterexample for C3 as frozen: `"-"` strips and splits to the
single segment `""`, so the claim's 1-segment rule demands the result
`""`, but `extractProjectName` returns the original `"-"`. -/
theorem c3_counterexample :
    partsOf "-" = [""] ∧
    extractProjectName "-" = "-" ∧
    ("-" : String) ≠ "" := by
  refine ⟨by decide, by decide, by decide⟩

/-- Witness for C3 (amended): the 6-segment rule applied to the
spec's own example. -/
theorem c3_witness :
    extractProjectName "-Users-me-personal-claude-daily-reports" =
      String.intercalate "-"
        ((partsOf "-Users-me-personal-claude-daily-reports").drop 3) :=
  (c3_decode_name_by_segment_count
    "-Users-me-personal-claude-daily-reports").2.1 (by decide) (by decide)

/-- C5 (amended): for every qualifying user event, the extracted
instruction text is the content itself when the content is plain
text; when the content is a sequence of parts it is the text of the
first part tagged `text` provided that text is present and non-empty,
while the `[Tool use]` placeholder is used when no text part exists
or the first text part's text is missing or empty (the JS `||`
fallback); any other content shape yields the `[Unknown content]`
placeholder — extraction is total and never fails. -/
theorem c5_instruction_extraction (e : Entry) :
    (∀ s, e.message.bind Message.content = some (Content.str s) →
      extractText e = s) ∧
    (∀ items it t, e.message.bind Message.content = some (Content.arr items) →
      items.find? (fun item => item.type == "text") = some it →
      it.text = some t → t ≠ "" →
      extractText e = t) ∧
    (∀ items it, e.message.bind Message.content = some (Content.arr items) →
      items.find? (fun item => item.type == "text") = some it →
      (it.text = none ∨ it.text = some "") →
      extractText e = "[Tool use]") ∧
    (∀ items, e.message.bind Message.content = some (Content.arr items) →
      items.find? (fun item => item.type == "text") = none →
      extractText e = "[Tool use]") ∧
    (e.message.bind Message.content = some Content.other ∨
        e.message.bind Message.content = none →
      extractText e = "[Unknown content]") := by
  refine ⟨?_, ?_, ?_, ?_, ?_⟩
  · intro s hc
    unfold extractText
    rw [hc]
  · intro items it t hc hfind ht htne
    unfold extractText
    rw [hc]
    dsimp only
    rw [hfind]
    dsimp only
    rw [ht]
    dsimp only
    rw [if_neg htne]
  · intro items it hc hfind ht
    unfold extractText
    rw [hc]
    dsimp only
    rw [hfind]
    dsimp only
    rcases ht with ht | ht <;> simp [ht]
  · intro items hc hfind
    unfold extractText
    rw [hc]
    dsimp only
    rw [hfind]
  · intro hc
    unfold extractText
    rcases hc with hc | hc <;> rw [hc]

/-- Counterexample for C5 as frozen: a content array whose single
part is tagged `text` but carries the empty text — a text part
exists, yet the `[Tool use]` placeholder is used, so the placeholder
is not used "only when no text part exists". -/
theorem c5_counterexample :
    ([{ type := "text", text := some "" }] : List ContentItem).find?
        (fun item => item.type == "text")
      = some { type := "text", text := some "" } ∧
    extractText
      { type := some "user",
        message := some { role := some "user",
                          content := some (Content.arr
                            [{ type := "text", text := some "" }]) },
        timestamp := some "2025-07-03T09:00:00Z" } = "[Tool use]" ∧
    ("[Tool use]" : String) ≠ "" :=
  ⟨by decide, by decide, by decide⟩

/-- Witness for C5 (amended): plain-text content is extracted as is,
and an array content with a non-empty text part yields that text. -/
theorem c5_witness :
    extractText entryU1 = "fix bug" ∧
    extractText
      { type := some "user",
        message := some { role := some "user",
                          content := some (Content.arr
                            [{ type := "image", text := none },
                             { type := "text", text := some "do it" }]) },
        timestamp := none } = "do it" := by
  constructor
  · exact (c5_instruction_extraction entryU1).1 "fix bug" (by decide)
  · exact (c5_instruction_extraction _).2.1
      [{ type := "image", text := none }, { type := "text", text := some "do it" }]
      { type := "text", text := some "do it" } "do it"
      (by decide) (by decide) (by decide) (by decide)

/-- C1 (amended): a line that fails to parse aborts the whole file,
it is not skipped.  For every project directory: the recorded
failures are exactly one per failing file, in scan order (the
`filterMap` characterisation), each with `lineNumber` 0 — the
failing line's 1-based number appears only inside the message —
and the produced sessions come only from the files whose read
succeeded, so none of a failing file's lines (valid ones included)
contribute; the remaining files are still processed.  When the first
failing line of a file sits after `pre` good lines, the file's error
message names line `pre.length + 1`. -/
theorem c1_bad_line_aborts_file (ext : Ext) (fs : FileSystem)
    (dir : DirEntry) (td : String) :
    (parseProjectForDate ext fs dir td).2.1 = fileErrors ext fs dir td ∧
    (∀ err ∈ (parseProjectForDate ext fs dir td).2.1, err.line = 0) ∧
    (∀ p, (parseProjectForDate ext fs dir td).1 = some p →
      p.sessions = stableSort sessionLE (rawSessions ext fs dir td)) ∧
    (∀ (path c : String) (pre : List String) (bad : String)
        (post : List String),
      jsSplitLines (jsTrim c) = pre ++ bad :: post →
      (∀ l ∈ pre, (ext.jsonParse l).isSome = true) →
      ext.jsonParse bad = none →
      readJsonlFile ext path (some c) =
        .error ("Failed to read JSONL file " ++ path ++ ": Error: "
          ++ ("Failed to parse line " ++ toString (pre.length + 1)
               ++ " in " ++ path))) := by
  have h1 : (parseProjectForDate ext fs dir td).2.1 = fileErrors ext fs dir td := by
    rw [parseProjectForDate_eq]
    split
    · rename_i hempty
      show ([] : List ParseError) = fileErrors ext fs dir td
      unfold fileErrors
      rw [List.isEmpty_iff.mp hempty]
      rfl
    · split <;> rfl
  refine ⟨h1, ?_, ?_, ?_⟩
  · intro err herr
    rw [h1] at herr
    obtain ⟨f, hf, hs⟩ := List.mem_filterMap.mp herr
    exact sessionErr_line_zero hs
  · intro p hp
    exact (parseProjectForDate_fst_some hp).2.2.1
  · intro path c pre bad post hsplit hpre hbad
    unfold readJsonlFile
    dsimp only
    rw [hsplit,
        parseLines_first_error ext path pre bad post 0 hpre hbad,
        Nat.zero_add]

/-- Counterexample for C1 as frozen: a log file with one malformed
line (line 5) among ten valid ones.  The claim requires one
ParseFailure carrying line number 5 plus a session built from the
valid lines; the code instead records one file-level failure with
`line = 0` (the 5 appears only in the message) and produces no
session at all — while the same file without the malformed line does
produce the session. -/
theorem c1_counterexample :
    parseForDate extA fsC1 "2025-07-03" =
      { success := true, data := some reportEmpty,
        errors := [errC1], warnings := [] } ∧
    errC1.line = 0 ∧
    (parseForDate extA fsC1v "2025-07-03").data =
      some { date := "2025-07-03", projects := [projectE2E],
             summary := { totalDuration := 15, totalMessages := 1,
                          projectCount := 1, sessionCount := 1 } } := by
  refine ⟨by decide, by decide, by decide⟩

/-- Witness for C1 (amended): the failing file of `fsC1` read
directly — the thrown message names line 5. -/
theorem c1_witness :
    readJsonlFile extA "f.jsonl" (some (String.intercalate "\n"
      [lineU1, lineA1, "5", "5", "oops", "5", "5", "5", "5", "5", "5"])) =
      .error ("Failed to read JSONL file f.jsonl: Error: Failed to parse line 5 in f.jsonl") := by
  have h := (c1_bad_line_aborts_file extA fsC1 dirE2E "2025-07-03").2.2.2
    "f.jsonl"
    (String.intercalate "\n"
      [lineU1, lineA1, "5", "5", "oops", "5", "5", "5", "5", "5", "5"])
    [lineU1, lineA1, "5", "5"] "oops" ["5", "5", "5", "5", "5", "5"]
    (by decide) (by decide) (by decide)
  exact h.trans (by rfl)

/-- C10: a log file whose content is empty or whitespace-only fails
at file level — trimming and splitting leaves the single empty line,
which `JSON.parse` rejects, so the file contributes no events and no
session, only one file-level failure; by contrast a single trailing
newline is absorbed by `trim`, so it yields no extra record and no
failure (reading `c ++ "\n"` equals reading `c`). -/
theorem c10_empty_file_fails_trailing_newline_harmless (ext : Ext)
    (path fn td pp : String) :
    (∀ c : String, jsTrim c = "" → ext.jsonParse "" = none →
      jsSplitLines (jsTrim c) = [""] ∧
      readJsonlFile ext path (some c) =
        .error ("Failed to read JSONL file " ++ path ++ ": Error: "
          ++ ("Failed to parse line " ++ toString 1 ++ " in " ++ path)) ∧
      parseSessionFile ext path fn (some c) td pp =
        .error ("Failed to read JSONL file " ++ path ++ ": Error: "
          ++ ("Failed to parse line " ++ toString 1 ++ " in " ++ path))) ∧
    (∀ c : String, readJsonlFile ext path (some (c ++ "\n")) =
      readJsonlFile ext path (some c)) := by
  constructor
  · intro c htrim hjson
    have hsplit : jsSplitLines (jsTrim c) = [""] := by
      rw [htrim]
      decide
    have hread : readJsonlFile ext path (some c) =
        .error ("Failed to read JSONL file " ++ path ++ ": Error: "
          ++ ("Failed to parse line " ++ toString 1 ++ " in " ++ path)) := by
      unfold readJsonlFile
      dsimp only
      rw [hsplit]
      unfold parseLines
      rw [hjson]
    refine ⟨hsplit, hread, ?_⟩
    unfold parseSessionFile
    rw [hread]
  · intro c
    unfold readJsonlFile
    dsimp only
    rw [jsTrim_append_newline]

/-- Witness for C10: a whitespace-only file content fails with the
line-1 message, and appending one newline to a normal one-line file
changes nothing. -/
theorem c10_witness :
    readJsonlFile extA "g.jsonl" (some "  \n ") =
      .error ("Failed to read JSONL file g.jsonl: Error: Failed to parse line 1 in g.jsonl") ∧
    readJsonlFile extA "g.jsonl" (some (lineU1 ++ "\n")) =
      readJsonlFile extA "g.jsonl" (some lineU1) := by
  constructor
  · have h := ((c10_empty_file_fails_trailing_newline_harmless extA
      "g.jsonl" "g" "2025-07-03" "p").1 "  \n " (by decide) (by decide)).2.1
    exact h.trans (by rfl)
  · exact (c10_empty_file_fails_trailing_newline_harmless extA
      "g.jsonl" "g" "2025-07-03" "p").2 lineU1

end CCDaily
